import Mathlib

/-!
Verification of the work-distribution coordinator of the
`cf-multiworker-boilerplate` repository.

The definitions below are a shallow embedding of the two coordinator
variants:

* the rich variant (`CoordinatorDo` with timestamps, batch submission,
  dual dispatch modes, cap 50) — the file `src/unnamed/part_000`;
* the simple variant (cap 10, no timestamp accounting) — the second
  `CoordinatorDo` in `src/durable-objects/coordinator-do/workers/app.ts`.

The coordinator's persisted `queue` key is modelled as a `List WorkItem`;
the effectful parts (storage writes, the direct RPC to the processor, the
`WORK_QUEUE.send` enqueue) are modelled by returning an explicit trace of
`Effect`s together with the new list, and by passing the outcome of each
external call (a thrown error is the `Except.error` case carrying the
message string) in a `DispatchEnv` record.  Every `Date.now()` read is an
explicit parameter.  All functions are total: the TypeScript operations
never throw on their own (they only guard and return), which the embedding
reflects by returning the unchanged list with an empty effect trace.

One deliberate simplification: in the source, `workItem.payload.timestamps`
aliases `workItem.timestamps` (the same array object), so the pushes done by
`processWork` are also visible through the payload.  The embedded
`WorkPayload.timestamps` field holds the value at creation time only; no
claim reads the payload's trail, so the aliasing is irrelevant here.
-/

namespace Coordinator

/-- The four lifecycle states of a work item. -/
inductive Status
  | pending
  | processing
  | completed
  | failed
deriving DecidableEq, Repr

/-- One tagged wall-clock reading of the timestamp trail. -/
structure TimestampEntry where
  tag : String
  time : Int
deriving DecidableEq, Repr

/-- `WorkPayload` of `do-common`: message, delay and an optional trail. -/
structure WorkPayload where
  message : String
  delay : Int
  timestamps : Option (List TimestampEntry)
deriving DecidableEq, Repr

/-- `ProcessorResult` of `do-common` (the processor's structured output). -/
structure ProcessorResult where
  processed : Bool
  input : WorkPayload
  processedAt : Int
  processCount : Int
  message : String
  timestamps : List TimestampEntry
deriving DecidableEq, Repr

/-- A work item of the rich coordinator variant. -/
structure WorkItem where
  id : String
  payload : WorkPayload
  status : Status
  createdAt : Int
  updatedAt : Int
  result : Option ProcessorResult
  error : Option String
  timestamps : List TimestampEntry
  timeTaken : Option Int
deriving DecidableEq, Repr

/-- The message sent to the delivery queue (`QueueMessage` of `do-common`). -/
structure QueueMessage where
  workId : String
  payload : WorkPayload
  coordinatorId : String
  timestamps : List TimestampEntry
deriving DecidableEq, Repr

/-- The two dispatch strategies. -/
inductive Mode
  | queue
  | direct
deriving DecidableEq, Repr

/-- Observable side effects of a coordinator operation, in order. -/
inductive Effect
  | putQueue (q : List WorkItem)
  | callProcessor (stubName : String) (payload : WorkPayload)
  | sendQueue (msg : QueueMessage)
deriving DecidableEq, Repr

/-- Default values used only as `getD` fallbacks in statements. -/
def dummyTimestamp : TimestampEntry := { tag := "", time := 0 }

def dummyPayload : WorkPayload := { message := "", delay := 0, timestamps := none }

def dummyItem : WorkItem :=
  { id := ""
    payload := dummyPayload
    status := Status.pending
    createdAt := 0
    updatedAt := 0
    result := none
    error := none
    timestamps := []
    timeTaken := none }

/-- The predicate `(item) => item.id === workId` used by both `find` calls. -/
def matchId (workId : String) (w : WorkItem) : Bool := w.id == workId

/-- `queue.find((item) => item.id === workId)`. -/
def findItem (q : List WorkItem) (workId : String) : Option WorkItem :=
  q.find? (matchId workId)

/-- In-place mutation of the first element satisfying `p` (the JS `find`
followed by mutating the found object inside the array). -/
def setFirst (p : α → Bool) (f : α → α) : List α → List α
  | [] => []
  | x :: xs => if p x then f x :: xs else x :: setFirst p f xs

/-- JS truthiness of the optional `error` string (`if (error)`): `undefined`
and the empty string are falsy. -/
def errTruthy : Option String → Bool
  | none => false
  | some s => !(s == "")

/-- The `timeTaken` recomputation block of `updateWorkResult` (lines 286-293
of the rich variant): only when the trail has more than one entry. -/
def computeTimeTaken (w : WorkItem) : WorkItem :=
  if w.timestamps.length > 1 then
    match w.timestamps.head?, w.timestamps.getLast? with
    | some f, some l => { w with timeTaken := some (l.time - f.time) }
    | _, _ => w
  else w

/-- The mutation `updateWorkResult` applies to the found item: optional
wholesale trail replacement, then status/result/error update, then
`timeTaken` recomputation, then `updatedAt` refresh. -/
def reconcileItem (w : WorkItem) (result : Option ProcessorResult)
    (error : Option String) (timestamps : Option (List TimestampEntry))
    (now : Int) : WorkItem :=
  let w1 :=
    match timestamps with
    | some ts => { w with timestamps := ts }
    | none => w
  let w2 :=
    if errTruthy error then
      { w1 with status := Status.failed, error := error }
    else
      let wc := { w1 with status := Status.completed }
      match result with
      | some r => { wc with result := some r }
      | none => wc
  let w3 := computeTimeTaken w2
  { w3 with updatedAt := now }

/-- `CoordinatorDo.updateWorkResult` of the rich variant: no-op when the id
is unknown, otherwise reconcile the found item and persist. -/
def updateWorkResult (q : List WorkItem) (workId : String)
    (result : Option ProcessorResult) (error : Option String)
    (timestamps : Option (List TimestampEntry)) (now : Int) :
    List WorkItem × List Effect :=
  match findItem q workId with
  | none => (q, [])
  | some _ =>
    let q1 := setFirst (matchId workId) (fun w => reconcileItem w result error timestamps now) q
    (q1, [Effect.putQueue q1])

/-- Outcomes of the external calls and the wall-clock reads one
`processWork` invocation may perform. -/
structure DispatchEnv where
  statusNow : Int
  sendTime : Int
  callOutcome : Except String ProcessorResult
  sendOutcome : Except String Unit
  failNow : Int
  reportNow : Int
deriving Repr

/-- Marking the found pending item: status to `processing`, `updatedAt`
refreshed, and the dispatch timestamp appended with its sequential tag. -/
def markProcessing (tagSuffix : String) (statusNow sendTime : Int)
    (w : WorkItem) : WorkItem :=
  { w with
      status := Status.processing
      updatedAt := statusNow
      timestamps := w.timestamps ++
        [{ tag := toString (w.timestamps.length + 1) ++ "-" ++ tagSuffix
           time := sendTime }] }

/-- The catch-block mutation of `processWork`: status to `failed`, the
thrown error's message stored, `updatedAt` refreshed. -/
def failItem (msg : String) (failNow : Int) (w : WorkItem) : WorkItem :=
  { w with status := Status.failed, error := some msg, updatedAt := failNow }

/-- `CoordinatorDo.processWork` of the rich variant.  Guards on a missing or
non-`pending` item, then marks it processing, persists, and performs the
mode-specific external call, failing the item if that call throws. -/
def processWork (q : List WorkItem) (workId : String) (mode : Mode)
    (coordinatorId : String) (env : DispatchEnv) :
    List WorkItem × List Effect :=
  match findItem q workId with
  | none => (q, [])
  | some w0 =>
    if w0.status = Status.pending then
      match mode with
      | Mode.direct =>
        let q1 := setFirst (matchId workId)
          (markProcessing "directSend-rpc" env.statusNow env.sendTime) q
        let callEff := Effect.callProcessor ("processor-" ++ coordinatorId) w0.payload
        match env.callOutcome with
        | Except.ok r =>
          let out := updateWorkResult q1 workId (some r) none (some r.timestamps) env.reportNow
          (out.fst, Effect.putQueue q1 :: callEff :: out.snd)
        | Except.error msg =>
          let q2 := setFirst (matchId workId) (failItem msg env.failNow) q1
          (q2, [Effect.putQueue q1, callEff, Effect.putQueue q2])
      | Mode.queue =>
        let q1 := setFirst (matchId workId)
          (markProcessing "queueEnqueued" env.statusNow env.sendTime) q
        let msg : QueueMessage :=
          { workId := w0.id
            payload := w0.payload
            coordinatorId := coordinatorId
            timestamps := w0.timestamps ++
              [{ tag := toString (w0.timestamps.length + 1) ++ "-" ++ "queueEnqueued"
                 time := env.sendTime }] }
        let sendEff := Effect.sendQueue msg
        match env.sendOutcome with
        | Except.ok _ => (q1, [Effect.putQueue q1, sendEff])
        | Except.error m =>
          let q2 := setFirst (matchId workId) (failItem m env.failNow) q1
          (q2, [Effect.putQueue q1, sendEff, Effect.putQueue q2])
    else (q, [])

/-- The `POST /process/:workId` route calls `this.processWork(workId)` with
no mode argument, so the TypeScript default `mode = "queue"` applies. -/
def processWorkDefault (q : List WorkItem) (workId : String)
    (coordinatorId : String) (env : DispatchEnv) :
    List WorkItem × List Effect :=
  processWork q workId Mode.queue coordinatorId env

/-- The rich variant's history cap. -/
def COORDINATOR_CAP : Nat := 50

/-- `if (queue.length > cap) queue.splice(0, queue.length - cap)`. -/
def truncateToCap (cap : Nat) (l : List α) : List α :=
  if cap < l.length then l.drop (l.length - cap) else l

/-- One submission's request data and clock reads (`crypto.randomUUID()`
and the three `Date.now()` calls are inputs of the embedding). -/
structure SubmitInput where
  id : String
  message : String
  delay : Int
  recvTime : Int
  createdNow : Int
  updatedNow : Int
deriving DecidableEq, Repr

/-- The work item `POST /queue` creates: status `pending`, a single
`serverReceived` trail entry shared with the payload. -/
def mkWorkItem (s : SubmitInput) : WorkItem :=
  let ts : List TimestampEntry := [{ tag := "1-serverReceived", time := s.recvTime }]
  { id := s.id
    payload := { message := s.message, delay := s.delay, timestamps := some ts }
    status := Status.pending
    createdAt := s.createdNow
    updatedAt := s.updatedNow
    result := none
    error := none
    timestamps := ts
    timeTaken := none }

/-- `POST /queue` of the rich variant: append the new item, evict from the
front past the cap of 50, persist.  (The asynchronous dispatch trigger is a
separate `processWork` call.) -/
def submit (q : List WorkItem) (s : SubmitInput) : List WorkItem :=
  truncateToCap 50 (q ++ [mkWorkItem s])

/-- Sequential single submissions. -/
def submitMany (q : List WorkItem) (subs : List SubmitInput) : List WorkItem :=
  subs.foldl submit q

/-- One entry of a batch submission (id and per-iteration clock reads). -/
structure BatchEntry where
  id : String
  message : String
  createdNow : Int
  updatedNow : Int
deriving DecidableEq, Repr

/-- The work item the batch loop creates for one message: the whole batch
shares one `serverReceived` time (`baseTime`) and one delay. -/
def mkBatchItem (delay baseTime : Int) (e : BatchEntry) : WorkItem :=
  let ts : List TimestampEntry := [{ tag := "1-serverReceived", time := baseTime }]
  { id := e.id
    payload := { message := e.message, delay := delay, timestamps := some ts }
    status := Status.pending
    createdAt := e.createdNow
    updatedAt := e.updatedNow
    result := none
    error := none
    timestamps := ts
    timeTaken := none }

/-- `POST /queue/batch` of the rich variant: the loop pushes one item per
non-empty message (`if (!message) continue`), then eviction is applied once
after all items of the batch are appended. -/
def submitBatch (q : List WorkItem) (entries : List BatchEntry)
    (delay baseTime : Int) : List WorkItem :=
  let step := fun (acc : List WorkItem) (e : BatchEntry) =>
    if e.message == "" then acc else acc ++ [mkBatchItem delay baseTime e]
  truncateToCap 50 (entries.foldl step q)

/-- The storage schema version constant of the rich variant. -/
def COORDINATOR_VERSION : Nat := 1

/-- The per-instance durable store: its only keys are `version` and
`queue` (a missing key is `none` / the empty list). -/
structure CoordinatorStorage where
  version : Option Nat
  queue : List WorkItem
deriving DecidableEq, Repr

/-- `CoordinatorDo.checkAndMigrateVersion`: on a version mismatch
(including a missing stored version) delete all persisted state and stamp
the current version; otherwise leave storage untouched. -/
def checkAndMigrateVersion (s : CoordinatorStorage) : CoordinatorStorage :=
  if s.version = some COORDINATOR_VERSION then s
  else { version := some COORDINATOR_VERSION, queue := [] }

/-! ### The simple (cap-10) coordinator variant -/

/-- `WorkPayload` of the simple variant's `do-common`: no trail. -/
structure WorkPayloadS where
  message : String
  delay : Int
deriving DecidableEq, Repr

/-- A work item of the simple variant; its `result` is `unknown` in the
source and is modelled opaquely as a string (its serialized form). -/
structure WorkItemS where
  id : String
  payload : WorkPayloadS
  status : Status
  createdAt : Int
  updatedAt : Int
  result : Option String
  error : Option String
deriving DecidableEq, Repr

def dummyItemS : WorkItemS :=
  { id := ""
    payload := { message := "", delay := 0 }
    status := Status.pending
    createdAt := 0
    updatedAt := 0
    result := none
    error := none }

/-- One submission of the simple variant. -/
structure SubmitInputS where
  id : String
  message : String
  delay : Int
  createdNow : Int
  updatedNow : Int
deriving DecidableEq, Repr

def mkWorkItemS (s : SubmitInputS) : WorkItemS :=
  { id := s.id
    payload := { message := s.message, delay := s.delay }
    status := Status.pending
    createdAt := s.createdNow
    updatedAt := s.updatedNow
    result := none
    error := none }

/-- `POST /queue` of the simple variant: append, evict past the cap of 10,
persist. -/
def submitS (q : List WorkItemS) (s : SubmitInputS) : List WorkItemS :=
  truncateToCap 10 (q ++ [mkWorkItemS s])

def submitManyS (q : List WorkItemS) (subs : List SubmitInputS) : List WorkItemS :=
  subs.foldl submitS q

def matchIdS (workId : String) (w : WorkItemS) : Bool := w.id == workId

/-- The simple variant's reconciliation of the found item: on success the
`result` assignment is unconditional (`workItem.result = result`). -/
def reconcileItemS (w : WorkItemS) (result : Option String)
    (error : Option String) (now : Int) : WorkItemS :=
  let w1 :=
    if errTruthy error then { w with status := Status.failed, error := error }
    else { w with status := Status.completed, result := result }
  { w1 with updatedAt := now }

/-- `CoordinatorDo.updateWorkResult` of the simple (cap-10) variant. -/
def updateWorkResultS (q : List WorkItemS) (workId : String)
    (result : Option String) (error : Option String) (now : Int) :
    List WorkItemS :=
  match q.find? (matchIdS workId) with
  | none => q
  | some _ => setFirst (matchIdS workId) (fun w => reconcileItemS w result error now) q

/-! ### Operation sequences -/

/-- The two operations that can touch an existing item's status. -/
inductive DOp
  | dispatch (workId : String) (mode : Mode) (coordinatorId : String) (env : DispatchEnv)
  | report (workId : String) (result : Option ProcessorResult)
      (error : Option String) (timestamps : Option (List TimestampEntry)) (now : Int)

def applyDOp (q : List WorkItem) : DOp → List WorkItem
  | DOp.dispatch id m c e => (processWork q id m c e).fst
  | DOp.report id r e ts n => (updateWorkResult q id r e ts n).fst

def runDOps (q : List WorkItem) (ops : List DOp) : List WorkItem :=
  ops.foldl applyDOp q

/-- Every state-mutating operation of the rich coordinator. -/
inductive Op
  | submitOne (s : SubmitInput)
  | submitBatchOp (entries : List BatchEntry) (delay baseTime : Int)
  | dispatchOp (workId : String) (mode : Mode) (coordinatorId : String) (env : DispatchEnv)
  | reportOp (workId : String) (result : Option ProcessorResult)
      (error : Option String) (timestamps : Option (List TimestampEntry)) (now : Int)

def applyOp (q : List WorkItem) : Op → List WorkItem
  | Op.submitOne s => submit q s
  | Op.submitBatchOp entries delay baseTime => submitBatch q entries delay baseTime
  | Op.dispatchOp id m c e => (processWork q id m c e).fst
  | Op.reportOp id r e ts n => (updateWorkResult q id r e ts n).fst

def runOps (q : List WorkItem) (ops : List Op) : List WorkItem :=
  ops.foldl applyOp q

/-- Rank of a status along `pending → processing → {completed, failed}`. -/
def statusRank : Status → Nat
  | Status.pending => 0
  | Status.processing => 1
  | Status.completed => 2
  | Status.failed => 2

/-- Whether a status is terminal. -/
def isTerminal : Status → Bool
  | Status.completed => true
  | Status.failed => true
  | _ => false

/-- The status of the item at position `i` (dummy past the end). -/
def statusAt (q : List WorkItem) (i : Nat) : Status :=
  (q.getD i dummyItem).status

def isProcessorCall : Effect → Bool
  | Effect.callProcessor _ _ => true
  | _ => false

def isQueueSend : Effect → Bool
  | Effect.sendQueue _ => true
  | _ => false

/-! ### Helper lemmas about `setFirst` -/

lemma setFirst_getD (p : α → Bool) (f : α → α) (l : List α) (d : α) (i : Nat) :
    (setFirst p f l).getD i d = l.getD i d ∨
      ((setFirst p f l).getD i d = f (l.getD i d) ∧ l.find? p = some (l.getD i d)) := by
  induction l generalizing i with
  | nil => left; rfl
  | cons x xs ih =>
    by_cases hp : p x
    · cases i with
      | zero =>
        right
        refine ⟨?_, ?_⟩
        · simp [setFirst, hp]
        · simp [List.find?_cons_of_pos _ hp]
      | succ n => left; simp [setFirst, hp]
    · cases i with
      | zero => left; simp [setFirst, hp]
      | succ n =>
        rcases ih n with h | ⟨h1, h2⟩
        · left; simpa [setFirst, hp] using h
        · right
          refine ⟨?_, ?_⟩
          · simpa [setFirst, hp] using h1
          · simpa [List.find?_cons_of_neg _ (by simpa using hp)] using h2

lemma find?_setFirst (p : α → Bool) (f : α → α) (l : List α) (w : α)
    (hfind : l.find? p = some w) (hpf : p (f w) = true) :
    (setFirst p f l).find? p = some (f w) := by
  induction l with
  | nil => simp [List.find?] at hfind
  | cons x xs ih =>
    by_cases hp : p x
    · rw [List.find?_cons_of_pos _ hp] at hfind
      injection hfind with h
      subst h
      simp [setFirst, hp, List.find?_cons_of_pos _ hpf]
    · rw [List.find?_cons_of_neg _ (by simpa using hp)] at hfind
      simp [setFirst, hp, List.find?_cons_of_neg _ (by simpa using hp), ih hfind]

lemma mem_setFirst (p : α → Bool) (f : α → α) (l : List α) (w' : α)
    (h : w' ∈ setFirst p f l) :
    w' ∈ l ∨ ∃ w, l.find? p = some w ∧ w' = f w := by
  induction l with
  | nil => simp [setFirst] at h
  | cons x xs ih =>
    by_cases hp : p x
    · simp only [setFirst, if_pos hp] at h
      rcases List.mem_cons.mp h with h1 | h1
      · right; exact ⟨x, List.find?_cons_of_pos _ hp, h1⟩
      · left; exact List.mem_cons_of_mem _ h1
    · simp only [setFirst, if_neg hp] at h
      rcases List.mem_cons.mp h with h1 | h1
      · left; simp [h1]
      · rcases ih h1 with h2 | ⟨w, hw1, hw2⟩
        · left; exact List.mem_cons_of_mem _ h2
        · right
          exact ⟨w, by
            rw [List.find?_cons_of_neg _ (by simpa using hp)]; exact hw1, hw2⟩

/-! ### Projection lemmas about the item mutations -/

lemma computeTimeTaken_eq (w : WorkItem) :
    ∃ t, computeTimeTaken w = { w with timeTaken := t } := by
  unfold computeTimeTaken
  split
  · split
    · exact ⟨_, rfl⟩
    · exact ⟨w.timeTaken, rfl⟩
  · exact ⟨w.timeTaken, rfl⟩

lemma computeTimeTaken_timeTaken (w : WorkItem) :
    (computeTimeTaken w).timeTaken =
      (if 1 < w.timestamps.length
       then some ((w.timestamps.getLast?.getD dummyTimestamp).time
                  - (w.timestamps.head?.getD dummyTimestamp).time)
       else w.timeTaken) := by
  unfold computeTimeTaken
  rcases hts : w.timestamps with _ | ⟨a, l⟩
  · simp
  · rcases hl : l with _ | ⟨c, l2⟩
    · simp
    · have h1 : 1 < (a :: c :: l2).length := by simp
      rcases hgl : (a :: c :: l2).getLast? with _ | b
      · rw [List.getLast?_eq_none_iff] at hgl
        exact absurd hgl (List.cons_ne_nil _ _)
      · simp [h1, hgl]

lemma computeTimeTaken_id (w : WorkItem) :
    (computeTimeTaken w).id = w.id := by
  obtain ⟨t, h⟩ := computeTimeTaken_eq w; rw [h]

lemma computeTimeTaken_status (w : WorkItem) :
    (computeTimeTaken w).status = w.status := by
  obtain ⟨t, h⟩ := computeTimeTaken_eq w; rw [h]

lemma computeTimeTaken_result (w : WorkItem) :
    (computeTimeTaken w).result = w.result := by
  obtain ⟨t, h⟩ := computeTimeTaken_eq w; rw [h]

lemma computeTimeTaken_error (w : WorkItem) :
    (computeTimeTaken w).error = w.error := by
  obtain ⟨t, h⟩ := computeTimeTaken_eq w; rw [h]

lemma computeTimeTaken_timestamps (w : WorkItem) :
    (computeTimeTaken w).timestamps = w.timestamps := by
  obtain ⟨t, h⟩ := computeTimeTaken_eq w; rw [h]

lemma mark_id (t : String) (a b : Int) (w : WorkItem) :
    (markProcessing t a b w).id = w.id := rfl

lemma mark_status (t : String) (a b : Int) (w : WorkItem) :
    (markProcessing t a b w).status = Status.processing := rfl

lemma mark_result (t : String) (a b : Int) (w : WorkItem) :
    (markProcessing t a b w).result = w.result := rfl

lemma mark_error (t : String) (a b : Int) (w : WorkItem) :
    (markProcessing t a b w).error = w.error := rfl

lemma mark_timeTaken (t : String) (a b : Int) (w : WorkItem) :
    (markProcessing t a b w).timeTaken = w.timeTaken := rfl

lemma fail_id (m : String) (n : Int) (w : WorkItem) :
    (failItem m n w).id = w.id := rfl

lemma fail_status (m : String) (n : Int) (w : WorkItem) :
    (failItem m n w).status = Status.failed := rfl

lemma fail_timeTaken (m : String) (n : Int) (w : WorkItem) :
    (failItem m n w).timeTaken = w.timeTaken := rfl

lemma reconcileItem_spec (w : WorkItem) (r : Option ProcessorResult)
    (e : Option String) (ts : Option (List TimestampEntry)) (n : Int) :
    (reconcileItem w r e ts n).id = w.id
    ∧ (reconcileItem w r e ts n).status
        = (if errTruthy e then Status.failed else Status.completed)
    ∧ (reconcileItem w r e ts n).timestamps = ts.getD w.timestamps
    ∧ (reconcileItem w r e ts n).updatedAt = n
    ∧ (reconcileItem w r e ts n).error = (if errTruthy e then e else w.error)
    ∧ (reconcileItem w r e ts n).result =
        (if errTruthy e then w.result
         else (match r with | some x => some x | none => w.result)) := by
  cases ts <;> by_cases he : errTruthy e <;> cases r <;>
    · unfold reconcileItem
      simp [he, computeTimeTaken_id, computeTimeTaken_status,
        computeTimeTaken_result, computeTimeTaken_error,
        computeTimeTaken_timestamps]

lemma reconcileItem_timeTaken (w : WorkItem) (r : Option ProcessorResult)
    (e : Option String) (ts : Option (List TimestampEntry)) (n : Int) :
    (reconcileItem w r e ts n).timeTaken =
      (if 1 < (ts.getD w.timestamps).length
       then some (((ts.getD w.timestamps).getLast?.getD dummyTimestamp).time
                  - ((ts.getD w.timestamps).head?.getD dummyTimestamp).time)
       else w.timeTaken) := by
  cases ts <;> by_cases he : errTruthy e <;> cases r <;>
    · unfold reconcileItem
      simp [he, computeTimeTaken_timeTaken]

/-! ### Rank lemmas -/

lemma statusRank_le_two (s : Status) : statusRank s ≤ 2 := by
  cases s <;> simp [statusRank]

lemma isTerminal_iff_rank (s : Status) : isTerminal s = true ↔ statusRank s = 2 := by
  cases s <;> simp [isTerminal, statusRank]

lemma reconcileItem_rank (w : WorkItem) (r : Option ProcessorResult)
    (e : Option String) (ts : Option (List TimestampEntry)) (n : Int) :
    statusRank (reconcileItem w r e ts n).status = 2 := by
  rw [(reconcileItem_spec w r e ts n).2.1]
  by_cases he : errTruthy e <;> simp [he, statusRank]

lemma rank_setFirst_two (p : WorkItem → Bool) (f : WorkItem → WorkItem)
    (hf : ∀ w, statusRank (f w).status = 2) (q : List WorkItem) (i : Nat) :
    statusRank (statusAt q i) ≤ statusRank (statusAt (setFirst p f q) i) := by
  unfold statusAt
  rcases setFirst_getD p f q dummyItem i with h | ⟨h, _⟩
  · rw [h]
  · rw [h, hf]
    exact statusRank_le_two _

lemma rank_setFirst_of_find (p : WorkItem → Bool) (f : WorkItem → WorkItem)
    (q : List WorkItem) (w0 : WorkItem) (hfind : q.find? p = some w0)
    (hw0 : statusRank w0.status = 0) (i : Nat) :
    statusRank (statusAt q i) ≤ statusRank (statusAt (setFirst p f q) i) := by
  unfold statusAt
  rcases setFirst_getD p f q dummyItem i with h | ⟨h, hfound⟩
  · rw [h]
  · have hgd : q.getD i dummyItem = w0 := by
      rw [hfind] at hfound
      exact (Option.some.injEq _ _ ▸ hfound).symm
    rw [h, hgd, hw0]
    exact Nat.zero_le _

lemma rank_updateWorkResult (q : List WorkItem) (workId : String)
    (r : Option ProcessorResult) (e : Option String)
    (ts : Option (List TimestampEntry)) (n : Int) (i : Nat) :
    statusRank (statusAt q i)
      ≤ statusRank (statusAt (updateWorkResult q workId r e ts n).fst i) := by
  rcases hf : findItem q workId with _ | w
  · simp [updateWorkResult, hf]
  · simp only [updateWorkResult, hf]
    exact rank_setFirst_two _ _ (fun w => reconcileItem_rank w r e ts n) q i

lemma rank_processWork (q : List WorkItem) (workId : String) (m : Mode)
    (c : String) (env : DispatchEnv) (i : Nat) :
    statusRank (statusAt q i)
      ≤ statusRank (statusAt (processWork q workId m c env).fst i) := by
  rcases hf : findItem q workId with _ | w0
  · simp [processWork, hf]
  · by_cases hp : w0.status = Status.pending
    · have hrank0 : statusRank w0.status = 0 := by rw [hp]; rfl
      have hstep1 : ∀ (t : String),
          statusRank (statusAt q i) ≤ statusRank (statusAt
            (setFirst (matchId workId)
              (markProcessing t env.statusNow env.sendTime) q) i) :=
        fun t => rank_setFirst_of_find _ _ q w0 hf hrank0 i
      cases m with
      | queue =>
        cases hso : env.sendOutcome with
        | ok _ =>
          simp only [processWork, hf, hp, if_true, hso]
          exact hstep1 _
        | error msg =>
          simp only [processWork, hf, hp, if_true, hso]
          exact le_trans (hstep1 _)
            (rank_setFirst_two _ _ (fun w => by rw [fail_status]; rfl) _ i)
      | direct =>
        cases hco : env.callOutcome with
        | ok r =>
          simp only [processWork, hf, hp, if_true, hco]
          exact le_trans (hstep1 _) (rank_updateWorkResult _ _ _ _ _ _ i)
        | error msg =>
          simp only [processWork, hf, hp, if_true, hco]
          exact le_trans (hstep1 _)
            (rank_setFirst_two _ _ (fun w => by rw [fail_status]; rfl) _ i)
    · simp [processWork, hf, hp]

lemma rank_runDOps (ops : List DOp) (q : List WorkItem) (i : Nat) :
    statusRank (statusAt q i) ≤ statusRank (statusAt (runDOps q ops) i) := by
  induction ops generalizing q with
  | nil => exact le_refl _
  | cons op ops ih =>
    refine le_trans ?_ (ih (applyDOp q op))
    cases op with
    | dispatch id m c e => exact rank_processWork q id m c e i
    | report id r e ts n => exact rank_updateWorkResult q id r e ts n i

/-! ### Guard and no-op lemmas for dispatch -/

lemma processWork_guard (q : List WorkItem) (workId : String) (m : Mode)
    (c : String) (env : DispatchEnv) :
    processWork q workId m c env = (q, [])
      ∨ (findItem q workId).map WorkItem.status = some Status.pending := by
  rcases hf : findItem q workId with _ | w0
  · left; simp [processWork, hf]
  · by_cases hp : w0.status = Status.pending
    · right; simp [hf, hp]
    · left; simp [processWork, hf, hp]

lemma processWork_noop_of_nonpending (q : List WorkItem) (workId : String)
    (m : Mode) (c : String) (env : DispatchEnv)
    (h : findItem q workId = none
      ∨ ∃ w', findItem q workId = some w' ∧ w'.status ≠ Status.pending) :
    processWork q workId m c env = (q, []) := by
  rcases h with h | ⟨w', hw', hnp⟩
  · simp [processWork, h]
  · simp [processWork, hw', hnp]

lemma findItem_setFirst (q : List WorkItem) (workId : String)
    (f : WorkItem → WorkItem) (w0 : WorkItem)
    (hf : findItem q workId = some w0) (hid : (f w0).id = w0.id) :
    findItem (setFirst (matchId workId) f q) workId = some (f w0) := by
  unfold findItem at *
  apply find?_setFirst _ _ _ _ hf
  have hm := List.find?_some hf
  simpa [matchId, hid] using hm

lemma findItem_after_processWork (q : List WorkItem) (workId : String)
    (m : Mode) (c : String) (env : DispatchEnv) :
    findItem (processWork q workId m c env).fst workId = none
    ∨ ∃ w', findItem (processWork q workId m c env).fst workId = some w'
        ∧ w'.status ≠ Status.pending := by
  rcases hf : findItem q workId with _ | w0
  · left; simp [processWork, hf]
  · by_cases hp : w0.status = Status.pending
    · right
      cases m with
      | queue =>
        have hq1 := findItem_setFirst q workId
          (markProcessing "queueEnqueued" env.statusNow env.sendTime) w0 hf rfl
        cases hso : env.sendOutcome with
        | ok _ =>
          refine ⟨markProcessing "queueEnqueued" env.statusNow env.sendTime w0, ?_, ?_⟩
          · simp only [processWork, hf, hp, if_true, hso]
            exact hq1
          · rw [mark_status]; simp
        | error msg =>
          refine ⟨failItem msg env.failNow
            (markProcessing "queueEnqueued" env.statusNow env.sendTime w0), ?_, ?_⟩
          · simp only [processWork, hf, hp, if_true, hso]
            exact findItem_setFirst _ workId (failItem msg env.failNow) _ hq1 rfl
          · rw [fail_status]; simp
      | direct =>
        have hq1 := findItem_setFirst q workId
          (markProcessing "directSend-rpc" env.statusNow env.sendTime) w0 hf rfl
        cases hco : env.callOutcome with
        | ok r =>
          refine ⟨reconcileItem
            (markProcessing "directSend-rpc" env.statusNow env.sendTime w0)
            (some r) none (some r.timestamps) env.reportNow, ?_, ?_⟩
          · simp only [processWork, hf, hp, if_true, hco, updateWorkResult, hq1]
            exact findItem_setFirst _ workId
              (fun w => reconcileItem w (some r) none (some r.timestamps) env.reportNow)
              _ hq1 (reconcileItem_spec _ _ _ _ _).1
          · rw [(reconcileItem_spec _ _ _ _ _).2.1]
            by_cases he : errTruthy (none : Option String) <;> simp [he]
        | error msg =>
          refine ⟨failItem msg env.failNow
            (markProcessing "directSend-rpc" env.statusNow env.sendTime w0), ?_, ?_⟩
          · simp only [processWork, hf, hp, if_true, hco]
            exact findItem_setFirst _ workId (failItem msg env.failNow) _ hq1 rfl
          · rw [fail_status]; simp
    · right
      refine ⟨w0, ?_, hp⟩
      have hnoop := processWork_noop_of_nonpending q workId m c env (Or.inr ⟨w0, hf, hp⟩)
      rw [hnoop]
      exact hf

/-! ### Eviction (`truncateToCap`) lemmas -/

lemma truncateToCap_subset (cap : Nat) (l : List α) : truncateToCap cap l ⊆ l := by
  unfold truncateToCap
  split
  · exact List.drop_subset _ _
  · exact List.Subset.refl _

lemma truncateToCap_length (cap : Nat) (l : List α) :
    (truncateToCap cap l).length = min l.length cap := by
  unfold truncateToCap
  split
  · rw [List.length_drop]; omega
  · omega

lemma truncateToCap_of_lt (cap : Nat) (l : List α) (h : cap < l.length) :
    truncateToCap cap l = l.drop (l.length - cap) := if_pos h

lemma truncate_append_one (cap : Nat) (l : List α) (x : α) :
    truncateToCap cap (truncateToCap cap l ++ [x]) = truncateToCap cap (l ++ [x]) := by
  unfold truncateToCap
  by_cases h : cap < l.length
  · rw [if_pos h]
    have hlen : (l.drop (l.length - cap)).length = cap := by
      rw [List.length_drop]; omega
    have h2 : cap < (l.drop (l.length - cap) ++ [x]).length := by
      rw [List.length_append, hlen]; simp
    have h3 : cap < (l ++ [x]).length := by
      rw [List.length_append]; simp; omega
    rw [if_pos h2, if_pos h3]
    simp only [List.length_append, hlen, List.length_cons, List.length_nil]
    rcases Nat.eq_zero_or_pos cap with hc | hc
    · subst hc
      have hd1 : (l.drop l.length) = ([] : List α) := by
        apply List.drop_eq_nil_of_le; omega
      have hd2 : (l ++ [x]).drop (l.length + 1 - 0) = [] := by
        apply List.drop_eq_nil_of_le
        rw [List.length_append]; simp
      simp [hd1, hd2]
    · have e1 : cap + 1 - cap = 1 := by omega
      have e2 : l.length + 1 - cap ≤ l.length := by omega
      rw [e1, List.drop_append_of_le_length e2,
        List.drop_append_of_le_length (by omega : 1 ≤ (l.drop (l.length - cap)).length),
        List.drop_drop]
      congr 2
      omega
  · rw [if_neg h]

lemma foldl_truncate (cap : Nat) (xs : List α) (q : List α) :
    xs.foldl (fun acc x => truncateToCap cap (acc ++ [x])) (truncateToCap cap q)
      = truncateToCap cap (q ++ xs) := by
  induction xs generalizing q with
  | nil => simp
  | cons x xs ih =>
    rw [List.foldl_cons, truncate_append_one cap q x, ih (q ++ [x]),
      List.append_assoc]
    rfl

lemma submitMany_nil_start (subs : List SubmitInput) :
    submitMany [] subs = truncateToCap 50 (subs.map mkWorkItem) := by
  have h0 : truncateToCap 50 ([] : List WorkItem) = [] := rfl
  have := foldl_truncate 50 (subs.map mkWorkItem) ([] : List WorkItem)
  rw [h0, List.nil_append] at this
  rw [← this]
  unfold submitMany submit
  rw [List.foldl_map]

lemma submitManyS_nil_start (subs : List SubmitInputS) :
    submitManyS [] subs = truncateToCap 10 (subs.map mkWorkItemS) := by
  have h0 : truncateToCap 10 ([] : List WorkItemS) = [] := rfl
  have := foldl_truncate 10 (subs.map mkWorkItemS) ([] : List WorkItemS)
  rw [h0, List.nil_append] at this
  rw [← this]
  unfold submitManyS submitS
  rw [List.foldl_map]

/-- The batch loop appends exactly one item per non-empty message, in
order, after the existing queue. -/
lemma batch_foldl_eq (entries : List BatchEntry) (delay baseTime : Int)
    (q : List WorkItem) :
    entries.foldl
        (fun acc e => if e.message == "" then acc
          else acc ++ [mkBatchItem delay baseTime e]) q
      = q ++ (entries.filter (fun e => !(e.message == ""))).map
          (mkBatchItem delay baseTime) := by
  induction entries generalizing q with
  | nil => simp
  | cons e es ih =>
    rw [List.foldl_cons]
    by_cases he : e.message == ""
    · rw [if_pos he, ih]
      simp [List.filter_cons, he]
    · rw [if_neg he, ih]
      simp [List.filter_cons, he, List.append_assoc]

/-! ### The reachable-state invariant on `result`/`error` -/

/-- An item's `result` and `error` can be populated only in a terminal
state; an item that is not terminal carries neither field. -/
def itemOk (w : WorkItem) : Prop :=
  isTerminal w.status = true ∨ (w.result = none ∧ w.error = none)

def queueOk (q : List WorkItem) : Prop := ∀ w ∈ q, itemOk w

lemma itemOk_mkWorkItem (s : SubmitInput) : itemOk (mkWorkItem s) :=
  Or.inr ⟨rfl, rfl⟩

lemma itemOk_mkBatchItem (delay baseTime : Int) (e : BatchEntry) :
    itemOk (mkBatchItem delay baseTime e) :=
  Or.inr ⟨rfl, rfl⟩

lemma itemOk_failItem (m : String) (n : Int) (w : WorkItem) :
    itemOk (failItem m n w) := Or.inl rfl

lemma itemOk_reconcileItem (w : WorkItem) (r : Option ProcessorResult)
    (e : Option String) (ts : Option (List TimestampEntry)) (n : Int) :
    itemOk (reconcileItem w r e ts n) := by
  left
  rw [isTerminal_iff_rank]
  exact reconcileItem_rank w r e ts n

lemma itemOk_markProcessing (t : String) (a b : Int) (w : WorkItem)
    (hp : w.status = Status.pending) (hok : itemOk w) :
    itemOk (markProcessing t a b w) := by
  rcases hok with hterm | ⟨hr, he⟩
  · rw [hp] at hterm; simp [isTerminal] at hterm
  · right
    rw [mark_result, mark_error]
    exact ⟨hr, he⟩

lemma queueOk_updateWorkResult (q : List WorkItem) (workId : String)
    (r : Option ProcessorResult) (e : Option String)
    (ts : Option (List TimestampEntry)) (n : Int) (hq : queueOk q) :
    queueOk (updateWorkResult q workId r e ts n).fst := by
  rcases hf : findItem q workId with _ | w
  · simpa [updateWorkResult, hf] using hq
  · simp only [updateWorkResult, hf]
    intro w' hw'
    rcases mem_setFirst _ _ _ _ hw' with h | ⟨w2, _, rfl⟩
    · exact hq w' h
    · exact itemOk_reconcileItem _ _ _ _ _

lemma queueOk_setFirst_fail (q : List WorkItem) (workId msg : String)
    (n : Int) (hq : queueOk q) :
    queueOk (setFirst (matchId workId) (failItem msg n) q) := by
  intro w' hw'
  rcases mem_setFirst _ _ _ _ hw' with h | ⟨w2, _, rfl⟩
  · exact hq w' h
  · exact itemOk_failItem _ _ _

lemma queueOk_setFirst_mark (q : List WorkItem) (workId t : String)
    (a b : Int) (w0 : WorkItem) (hf : findItem q workId = some w0)
    (hp : w0.status = Status.pending) (hq : queueOk q) :
    queueOk (setFirst (matchId workId) (markProcessing t a b) q) := by
  intro w' hw'
  rcases mem_setFirst _ _ _ _ hw' with h | ⟨w2, hw2, rfl⟩
  · exact hq w' h
  · have : w2 = w0 := by
      have hw0 : List.find? (matchId workId) q = some w0 := hf
      rw [hw0] at hw2
      injection hw2.symm
    subst this
    exact itemOk_markProcessing t a b w2 hp
      (hq w2 (List.mem_of_find?_eq_some hf))

lemma queueOk_processWork (q : List WorkItem) (workId : String) (m : Mode)
    (c : String) (env : DispatchEnv) (hq : queueOk q) :
    queueOk (processWork q workId m c env).fst := by
  rcases hf : findItem q workId with _ | w0
  · simpa [processWork, hf] using hq
  · by_cases hp : w0.status = Status.pending
    · cases m with
      | queue =>
        have hq1 := queueOk_setFirst_mark q workId "queueEnqueued"
          env.statusNow env.sendTime w0 hf hp hq
        cases hso : env.sendOutcome with
        | ok _ => simpa [processWork, hf, hp, hso] using hq1
        | error msg =>
          simp only [processWork, hf, hp, if_true, hso]
          exact queueOk_setFirst_fail _ _ _ _ hq1
      | direct =>
        have hq1 := queueOk_setFirst_mark q workId "directSend-rpc"
          env.statusNow env.sendTime w0 hf hp hq
        cases hco : env.callOutcome with
        | ok r =>
          simp only [processWork, hf, hp, if_true, hco]
          exact queueOk_updateWorkResult _ _ _ _ _ _ hq1
        | error msg =>
          simp only [processWork, hf, hp, if_true, hco]
          exact queueOk_setFirst_fail _ _ _ _ hq1
    · simpa [processWork, hf, hp] using hq

lemma queueOk_submit (q : List WorkItem) (s : SubmitInput) (hq : queueOk q) :
    queueOk (submit q s) := by
  intro w' hw'
  have hmem := truncateToCap_subset 50 _ hw'
  rcases List.mem_append.mp hmem with h | h
  · exact hq w' h
  · rw [List.mem_singleton.mp h]
    exact itemOk_mkWorkItem s

lemma queueOk_submitBatch (q : List WorkItem) (entries : List BatchEntry)
    (delay baseTime : Int) (hq : queueOk q) :
    queueOk (submitBatch q entries delay baseTime) := by
  intro w' hw'
  have hmem := truncateToCap_subset 50 _ hw'
  rw [batch_foldl_eq] at hmem
  rcases List.mem_append.mp hmem with h | h
  · exact hq w' h
  · rcases List.mem_map.mp h with ⟨e, _, rfl⟩
    exact itemOk_mkBatchItem delay baseTime e

lemma queueOk_runOps (ops : List Op) (q : List WorkItem) (hq : queueOk q) :
    queueOk (runOps q ops) := by
  induction ops generalizing q with
  | nil => exact hq
  | cons op ops ih =>
    refine ih (applyOp q op) ?_
    cases op with
    | submitOne s => exact queueOk_submit q s hq
    | submitBatchOp entries delay baseTime =>
      exact queueOk_submitBatch q entries delay baseTime hq
    | dispatchOp id m c e => exact queueOk_processWork q id m c e hq
    | reportOp id r e ts n => exact queueOk_updateWorkResult q id r e ts n hq

/-! ### Concrete fixtures used by counterexamples and witnesses -/

def sampleResult : ProcessorResult :=
  { processed := true
    input := dummyPayload
    processedAt := 3
    processCount := 1
    message := "done"
    timestamps := [] }

def completedItemC1 : WorkItem :=
  { dummyItem with id := "w1", status := Status.completed }

def completedItemC5 : WorkItem :=
  { dummyItem with id := "w5", status := Status.completed, result := some sampleResult }

/-! ### Claim theorems -/

/-- C1 (counterexample): `updateWorkResult` has no status guard, so a
later error report moves an already `completed` (terminal) item to
`failed` — a transition out of a terminal state. -/
theorem c1_terminal_state_overwritten :
    completedItemC1.status = Status.completed
    ∧ ((updateWorkResult [completedItemC1] "w1" none (some "late failure") none 11).fst.getD
        0 dummyItem).status = Status.failed := by
  decide

/-- C1 (amended): under any sequence of dispatch and reportResult calls,
each item's status rank along `pending (0) → processing (1) →
{completed, failed} (2)` never decreases (no regression to `pending` or
`processing`), and dispatch itself is a complete no-op unless the found
item is `pending`; however `reportResult` applies to an item regardless
of its current status, so it can still switch an item between the two
terminal states. -/
theorem c1_status_rank_monotone :
    (∀ (q : List WorkItem) (ops : List DOp) (i : Nat),
        statusRank (statusAt q i) ≤ statusRank (statusAt (runDOps q ops) i))
    ∧ (∀ (q : List WorkItem) (workId : String) (m : Mode) (c : String)
        (env : DispatchEnv),
        processWork q workId m c env = (q, [])
          ∨ (findItem q workId).map WorkItem.status = some Status.pending) :=
  ⟨fun q ops i => rank_runDOps ops q i, processWork_guard⟩

/-- C2: dispatch on a missing item or an item whose status is not
`pending` is a silent no-op (state unchanged, nothing persisted, no
processor call, no enqueue — the effect trace is empty); consequently a
second dispatch of the same id, after any first dispatch in any mode, is
always such a no-op, so only one effective transition out of `pending`
occurs per item. -/
theorem c2_dispatch_idempotent :
    (∀ (q : List WorkItem) (workId : String) (m : Mode) (c : String)
        (env : DispatchEnv),
        processWork q workId m c env = (q, [])
          ∨ (findItem q workId).map WorkItem.status = some Status.pending)
    ∧ (∀ (q : List WorkItem) (workId : String) (m : Mode) (c : String)
        (env : DispatchEnv) (m' : Mode) (c' : String) (env' : DispatchEnv),
        processWork (processWork q workId m c env).fst workId m' c' env'
          = ((processWork q workId m c env).fst, [])) := by
  refine ⟨processWork_guard, ?_⟩
  intro q workId m c env m' c' env'
  exact processWork_noop_of_nonpending _ workId m' c' env'
    (findItem_after_processWork q workId m c env)

/-- C5 (counterexample): `result` and `error` are never cleared, so after
a success report followed by an error report the item is `failed` while
its `result` is still present — the claimed invariant "result present
only when completed" fails. -/
theorem c5_result_survives_error_report :
    ((updateWorkResult [completedItemC5] "w5" none (some "boom") none 9).fst.getD
        0 dummyItem).status = Status.failed
    ∧ ((updateWorkResult [completedItemC5] "w5" none (some "boom") none 9).fst.getD
        0 dummyItem).result = some sampleResult := by
  decide

/-- C5 (amended): after any sequence of submit, dispatch, and
reportResult calls starting from an empty queue, every item's `result`
and `error` fields can be present only when its status is terminal
(`completed` or `failed`); the stricter pairing (result only with
`completed`, error only with `failed`) does not survive alternating
repeated reports because neither field is ever cleared. -/
theorem c5_fields_only_when_terminal :
    ∀ (ops : List Op) (w : WorkItem), w ∈ runOps [] ops →
      isTerminal w.status = true ∨ (w.result = none ∧ w.error = none) := by
  intro ops w hw
  exact queueOk_runOps ops [] (by intro w' hw'; simp at hw') w hw

def sampleSubmit : SubmitInput :=
  { id := "s1", message := "hello", delay := 100
    recvTime := 5, createdNow := 6, updatedNow := 7 }

theorem c5_fields_only_when_terminal_witness :
    isTerminal (mkWorkItem sampleSubmit).status = true
    ∨ ((mkWorkItem sampleSubmit).result = none
        ∧ (mkWorkItem sampleSubmit).error = none) :=
  c5_fields_only_when_terminal [Op.submitOne sampleSubmit] (mkWorkItem sampleSubmit)
    (by decide)

/-- C6: `updateWorkResult` with a workId that is not in the list is a
total no-op: it returns (it cannot throw — the embedding is a total
function), leaves the list unchanged and writes nothing (empty effect
trace).  Stated as: either the id is present, or the call is exactly
`(q, [])`. -/
theorem c6_report_unknown_id_noop :
    ∀ (q : List WorkItem) (workId : String) (r : Option ProcessorResult)
      (e : Option String) (ts : Option (List TimestampEntry)) (n : Int),
      (findItem q workId).isSome = true
        ∨ updateWorkResult q workId r e ts n = (q, []) := by
  intro q workId r e ts n
  rcases hf : findItem q workId with _ | w
  · right; simp [updateWorkResult, hf]
  · left; simp

/-- C7: on startup, a stored version different from
`COORDINATOR_VERSION` (including a missing one) wipes all persisted
state and stamps the new version, leaving an empty queue; a matching
stored version leaves storage untouched. -/
theorem c7_version_migration_reset :
    ∀ (s : CoordinatorStorage),
      (s.version ≠ some COORDINATOR_VERSION →
        checkAndMigrateVersion s
          = { version := some COORDINATOR_VERSION, queue := [] })
      ∧ (s.version = some COORDINATOR_VERSION → checkAndMigrateVersion s = s) := by
  intro s
  constructor
  · intro h; simp [checkAndMigrateVersion, h]
  · intro h; simp [checkAndMigrateVersion, h]

theorem c7_version_migration_reset_witness :
    checkAndMigrateVersion { version := some 2, queue := [dummyItem] }
        = { version := some COORDINATOR_VERSION, queue := [] }
    ∧ checkAndMigrateVersion { version := some COORDINATOR_VERSION, queue := [dummyItem] }
        = { version := some COORDINATOR_VERSION, queue := [dummyItem] } :=
  ⟨(c7_version_migration_reset _).1 (by decide),
   (c7_version_migration_reset _).2 rfl⟩

def completedItemS : WorkItemS :=
  { id := "w9"
    payload := { message := "m", delay := 100 }
    status := Status.completed
    createdAt := 0
    updatedAt := 1
    result := some "r0"
    error := none }

/-- C9 (counterexample): in the cap-10 variant the success branch assigns
`workItem.result = result` unconditionally, so a success report with an
undefined result clears a previously stored result instead of leaving it
untouched. -/
theorem c9_undefined_result_clears_in_simple_variant :
    ((updateWorkResultS [completedItemS] "w9" none none 5).getD 0 dummyItemS).result = none
    ∧ completedItemS.result = some "r0" := by
  decide

/-- C9 (amended): a success report (no error) always sets the status to
`completed`; in the rich variant the `result` field is stored only when a
result value is provided, an undefined result leaving any prior result
untouched — but in the cap-10 variant the assignment is unconditional, so
an undefined result overwrites (clears) a previously stored one. -/
theorem c9_success_report_result_variants :
    (∀ (w : WorkItem) (ts : Option (List TimestampEntry)) (n : Int),
        (reconcileItem w none none ts n).status = Status.completed
        ∧ (reconcileItem w none none ts n).result = w.result)
    ∧ (∀ (w : WorkItem) (r : ProcessorResult) (ts : Option (List TimestampEntry)) (n : Int),
        (reconcileItem w (some r) none ts n).status = Status.completed
        ∧ (reconcileItem w (some r) none ts n).result = some r)
    ∧ (∀ (w : WorkItemS) (r : Option String) (n : Int),
        (reconcileItemS w r none n).status = Status.completed
        ∧ (reconcileItemS w r none n).result = r) := by
  refine ⟨fun w ts n => ⟨?_, ?_⟩, fun w r ts n => ⟨?_, ?_⟩, fun w r n => ⟨?_, ?_⟩⟩
  · rw [(reconcileItem_spec w none none ts n).2.1]; rfl
  · rw [(reconcileItem_spec w none none ts n).2.2.2.2.2]; rfl
  · rw [(reconcileItem_spec w (some r) none ts n).2.1]; rfl
  · rw [(reconcileItem_spec w (some r) none ts n).2.2.2.2.2]; rfl
  · simp [reconcileItemS, errTruthy]
  · simp [reconcileItemS, errTruthy]

/-- C3: bounded history.  (i) Submitting more than 50 items sequentially
into an empty rich-variant queue leaves exactly the 50 most recent items,
in original relative order (the oldest are evicted from the front);
(ii) the same for the simple variant with its cap of 10; (iii) for a
batch, eviction is applied once, after all items of the batch are
appended; (iv) one submission never grows the queue beyond the cap. -/
theorem c3_bounded_history :
    (∀ (subs : List SubmitInput), 50 < subs.length →
        submitMany [] subs = (subs.map mkWorkItem).drop (subs.length - 50)
        ∧ (submitMany [] subs).length = 50)
    ∧ (∀ (subs : List SubmitInputS), 10 < subs.length →
        submitManyS [] subs = (subs.map mkWorkItemS).drop (subs.length - 10)
        ∧ (submitManyS [] subs).length = 10)
    ∧ (∀ (q : List WorkItem) (entries : List BatchEntry) (delay baseTime : Int),
        submitBatch q entries delay baseTime
          = truncateToCap 50
              (q ++ (entries.filter (fun e => !(e.message == ""))).map
                (mkBatchItem delay baseTime)))
    ∧ (∀ (q : List WorkItem) (s : SubmitInput),
        (submit q s).length ≤ max q.length 50) := by
  refine ⟨?_, ?_, ?_, ?_⟩
  · intro subs h
    have hlen : 50 < (subs.map mkWorkItem).length := by
      rw [List.length_map]; exact h
    constructor
    · rw [submitMany_nil_start, truncateToCap_of_lt _ _ hlen, List.length_map]
    · rw [submitMany_nil_start, truncateToCap_length, List.length_map]
      omega
  · intro subs h
    have hlen : 10 < (subs.map mkWorkItemS).length := by
      rw [List.length_map]; exact h
    constructor
    · rw [submitManyS_nil_start, truncateToCap_of_lt _ _ hlen, List.length_map]
    · rw [submitManyS_nil_start, truncateToCap_length, List.length_map]
      omega
  · intro q entries delay baseTime
    simp only [submitBatch]
    rw [batch_foldl_eq]
  · intro q s
    unfold submit
    rw [truncateToCap_length, List.length_append, List.length_singleton]
    omega

def subs51 : List SubmitInput :=
  (List.range 51).map (fun i =>
    { id := toString i, message := "m", delay := 100
      recvTime := 0, createdNow := 0, updatedNow := 0 })

def subsS11 : List SubmitInputS :=
  (List.range 11).map (fun i =>
    { id := toString i, message := "m", delay := 100
      createdNow := 0, updatedNow := 0 })

theorem c3_bounded_history_witness :
    (submitMany [] subs51 = (subs51.map mkWorkItem).drop (subs51.length - 50)
      ∧ (submitMany [] subs51).length = 50)
    ∧ (submitManyS [] subsS11 = (subsS11.map mkWorkItemS).drop (subsS11.length - 10)
      ∧ (submitManyS [] subsS11).length = 10) :=
  ⟨c3_bounded_history.1 subs51 (by decide),
   c3_bounded_history.2.1 subsS11 (by decide)⟩

def pendingItemC4 : WorkItem :=
  mkWorkItem { id := "w4", message := "m", delay := 100
               recvTime := 0, createdNow := 0, updatedNow := 0 }

def envOkC4 : DispatchEnv :=
  { statusNow := 1, sendTime := 2, callOutcome := Except.ok sampleResult
    sendOutcome := Except.ok (), failNow := 3, reportNow := 4 }

/-- C4 (counterexample): queue-mode dispatch appends a trail entry (the
item now has 2 timestamps) but does not recompute `timeTaken`, which
stays absent — contradicting "recomputed whenever the item's timestamps
change (including the appends done by dispatch)". -/
theorem c4_dispatch_append_skips_timeTaken :
    (((processWork [pendingItemC4] "w4" Mode.queue "co" envOkC4).fst.getD
        0 dummyItem).timestamps.length = 2)
    ∧ (((processWork [pendingItemC4] "w4" Mode.queue "co" envOkC4).fst.getD
        0 dummyItem).timeTaken = none) := by
  decide

lemma timeTaken_setFirst (p : WorkItem → Bool) (f : WorkItem → WorkItem)
    (q : List WorkItem) (i : Nat)
    (hf : ∀ w, (f w).timeTaken = w.timeTaken) :
    ((setFirst p f q).getD i dummyItem).timeTaken
      = (q.getD i dummyItem).timeTaken := by
  rcases setFirst_getD p f q dummyItem i with h | ⟨h, _⟩
  · rw [h]
  · rw [h, hf]

/-- C4 (amended): `timeTaken` is recomputed only by the reconciliation
path (`reportResult`, including the one run internally on direct-dispatch
success): there it equals last − first of the possibly replaced trail
when that trail has at least 2 entries, and is left unchanged otherwise
(so it reflects the new trail, not the old one).  The timestamp appends
performed by dispatch itself never recompute it: queue-mode dispatch
leaves every item's `timeTaken` unchanged, as do the `markProcessing`
and catch-block mutations. -/
theorem c4_timeTaken_recomputed_only_on_reconcile :
    (∀ (w : WorkItem) (r : Option ProcessorResult) (e : Option String)
        (ts : Option (List TimestampEntry)) (n : Int),
        (reconcileItem w r e ts n).timeTaken =
          (if 1 < (ts.getD w.timestamps).length
           then some (((ts.getD w.timestamps).getLast?.getD dummyTimestamp).time
                      - ((ts.getD w.timestamps).head?.getD dummyTimestamp).time)
           else w.timeTaken))
    ∧ (∀ (q : List WorkItem) (workId c : String) (env : DispatchEnv) (i : Nat),
        ((processWork q workId Mode.queue c env).fst.getD i dummyItem).timeTaken
          = (q.getD i dummyItem).timeTaken)
    ∧ (∀ (t : String) (a b : Int) (w : WorkItem),
        (markProcessing t a b w).timeTaken = w.timeTaken)
    ∧ (∀ (m : String) (n : Int) (w : WorkItem),
        (failItem m n w).timeTaken = w.timeTaken) := by
  refine ⟨reconcileItem_timeTaken, ?_, mark_timeTaken, fail_timeTaken⟩
  intro q workId c env i
  rcases hf : findItem q workId with _ | w0
  · simp [processWork, hf]
  · by_cases hp : w0.status = Status.pending
    · cases hso : env.sendOutcome with
      | ok _ =>
        simp only [processWork, hf, hp, if_true, hso]
        exact timeTaken_setFirst _ _ q i (mark_timeTaken _ _ _)
      | error msg =>
        simp only [processWork, hf, hp, if_true, hso]
        rw [timeTaken_setFirst _ _ _ i (fail_timeTaken _ _)]
        exact timeTaken_setFirst _ _ q i (mark_timeTaken _ _ _)
    · simp [processWork, hf, hp]

def pendingItemC8 : WorkItem :=
  mkWorkItem { id := "w8", message := "m", delay := 100
               recvTime := 0, createdNow := 0, updatedNow := 0 }

def envFailC8 : DispatchEnv :=
  { statusNow := 1, sendTime := 2, callOutcome := Except.error "boom"
    sendOutcome := Except.error "boom", failNow := 3, reportNow := 4 }

/-- C8: if the direct processor call (direct mode) or the enqueue call
(queue mode) throws during dispatch of a pending item, the item becomes
`failed` with the thrown error's message in `error` and `updatedAt`
refreshed to the catch-time; the final effect of the trace is persisting
exactly the resulting list, and the external call is attempted exactly
once (no retry by the coordinator). -/
theorem c8_dispatch_failure_terminal :
    ∀ (q : List WorkItem) (workId c : String) (env : DispatchEnv)
      (w0 : WorkItem) (msg : String),
      findItem q workId = some w0 → w0.status = Status.pending →
      ((env.callOutcome = Except.error msg →
          ∃ w1, findItem (processWork q workId Mode.direct c env).fst workId = some w1
            ∧ w1.status = Status.failed ∧ w1.error = some msg
            ∧ w1.updatedAt = env.failNow
            ∧ (processWork q workId Mode.direct c env).snd.getLast?
                = some (Effect.putQueue (processWork q workId Mode.direct c env).fst)
            ∧ ((processWork q workId Mode.direct c env).snd.filter isProcessorCall).length = 1)
       ∧ (env.sendOutcome = Except.error msg →
          ∃ w1, findItem (processWork q workId Mode.queue c env).fst workId = some w1
            ∧ w1.status = Status.failed ∧ w1.error = some msg
            ∧ w1.updatedAt = env.failNow
            ∧ (processWork q workId Mode.queue c env).snd.getLast?
                = some (Effect.putQueue (processWork q workId Mode.queue c env).fst)
            ∧ ((processWork q workId Mode.queue c env).snd.filter isQueueSend).length = 1)) := by
  intro q workId c env w0 msg hf hp
  constructor
  · intro hc
    have hq1 := findItem_setFirst q workId
      (markProcessing "directSend-rpc" env.statusNow env.sendTime) w0 hf rfl
    refine ⟨failItem msg env.failNow
      (markProcessing "directSend-rpc" env.statusNow env.sendTime w0),
      ?_, rfl, rfl, rfl, ?_, ?_⟩
    · simp only [processWork, hf, hp, if_true, hc]
      exact findItem_setFirst _ workId (failItem msg env.failNow) _ hq1 rfl
    · simp only [processWork, hf, hp, if_true, hc]
      rfl
    · simp only [processWork, hf, hp, if_true, hc]
      rfl
  · intro hs
    have hq1 := findItem_setFirst q workId
      (markProcessing "queueEnqueued" env.statusNow env.sendTime) w0 hf rfl
    refine ⟨failItem msg env.failNow
      (markProcessing "queueEnqueued" env.statusNow env.sendTime w0),
      ?_, rfl, rfl, rfl, ?_, ?_⟩
    · simp only [processWork, hf, hp, if_true, hs]
      exact findItem_setFirst _ workId (failItem msg env.failNow) _ hq1 rfl
    · simp only [processWork, hf, hp, if_true, hs]
      rfl
    · simp only [processWork, hf, hp, if_true, hs]
      rfl

theorem c8_dispatch_failure_terminal_witness :
    (∃ w1, findItem (processWork [pendingItemC8] "w8" Mode.direct "co" envFailC8).fst "w8"
          = some w1
        ∧ w1.status = Status.failed ∧ w1.error = some "boom"
        ∧ w1.updatedAt = envFailC8.failNow
        ∧ (processWork [pendingItemC8] "w8" Mode.direct "co" envFailC8).snd.getLast?
            = some (Effect.putQueue
                (processWork [pendingItemC8] "w8" Mode.direct "co" envFailC8).fst)
        ∧ ((processWork [pendingItemC8] "w8" Mode.direct "co" envFailC8).snd.filter
            isProcessorCall).length = 1)
    ∧ (∃ w1, findItem (processWork [pendingItemC8] "w8" Mode.queue "co" envFailC8).fst "w8"
          = some w1
        ∧ w1.status = Status.failed ∧ w1.error = some "boom"
        ∧ w1.updatedAt = envFailC8.failNow
        ∧ (processWork [pendingItemC8] "w8" Mode.queue "co" envFailC8).snd.getLast?
            = some (Effect.putQueue
                (processWork [pendingItemC8] "w8" Mode.queue "co" envFailC8).fst)
        ∧ ((processWork [pendingItemC8] "w8" Mode.queue "co" envFailC8).snd.filter
            isQueueSend).length = 1) := by
  have h := c8_dispatch_failure_terminal [pendingItemC8] "w8" "co" envFailC8
    pendingItemC8 "boom" (by decide) (by decide)
  exact ⟨h.1 rfl, h.2 rfl⟩

/-- C10: the manual re-trigger route calls `processWork` with no mode
argument, so the TypeScript default `"queue"` applies
(`processWorkDefault`): for a pending item it appends a `queueEnqueued`
trail entry (never `directSend`), hands the work to the delivery queue
exactly once, and never calls the processor directly. -/
theorem c10_manual_retrigger_queue_mode :
    ∀ (q : List WorkItem) (workId c : String) (env : DispatchEnv) (w0 : WorkItem),
      findItem q workId = some w0 → w0.status = Status.pending →
      ∃ w1, findItem (processWorkDefault q workId c env).fst workId = some w1
        ∧ w1.timestamps = w0.timestamps ++
            [{ tag := toString (w0.timestamps.length + 1) ++ "-" ++ "queueEnqueued"
               time := env.sendTime }]
        ∧ ((processWorkDefault q workId c env).snd.filter isQueueSend).length = 1
        ∧ ((processWorkDefault q workId c env).snd.filter isProcessorCall).length = 0 := by
  intro q workId c env w0 hf hp
  unfold processWorkDefault
  have hq1 := findItem_setFirst q workId
    (markProcessing "queueEnqueued" env.statusNow env.sendTime) w0 hf rfl
  cases hso : env.sendOutcome with
  | ok _ =>
    refine ⟨markProcessing "queueEnqueued" env.statusNow env.sendTime w0,
      ?_, rfl, ?_, ?_⟩
    · simp only [processWork, hf, hp, if_true, hso]
      exact hq1
    · simp only [processWork, hf, hp, if_true, hso]
      rfl
    · simp only [processWork, hf, hp, if_true, hso]
      rfl
  | error msg =>
    refine ⟨failItem msg env.failNow
      (markProcessing "queueEnqueued" env.statusNow env.sendTime w0),
      ?_, rfl, ?_, ?_⟩
    · simp only [processWork, hf, hp, if_true, hso]
      exact findItem_setFirst _ workId (failItem msg env.failNow) _ hq1 rfl
    · simp only [processWork, hf, hp, if_true, hso]
      rfl
    · simp only [processWork, hf, hp, if_true, hso]
      rfl

theorem c10_manual_retrigger_queue_mode_witness :
    ∃ w1, findItem (processWorkDefault [pendingItemC4] "w4" "co" envOkC4).fst "w4" = some w1
      ∧ w1.timestamps = pendingItemC4.timestamps ++
          [{ tag := toString (pendingItemC4.timestamps.length + 1) ++ "-" ++ "queueEnqueued"
             time := envOkC4.sendTime }]
      ∧ ((processWorkDefault [pendingItemC4] "w4" "co" envOkC4).snd.filter
          isQueueSend).length = 1
      ∧ ((processWorkDefault [pendingItemC4] "w4" "co" envOkC4).snd.filter
          isProcessorCall).length = 0 :=
  c10_manual_retrigger_queue_mode [pendingItemC4] "w4" "co" envOkC4 pendingItemC4
    (by decide) (by decide)

end Coordinator
